import Mathlib

/-!
Verification of the UML/XMI to JSON Schema converter
(`.github/scripts/convert_uml_to_schema.py` and
`.github/scripts/generate_openapi.py`).

Shallow embedding conventions:
 - Python strings are Lean `String` (in this toolchain a wrapper around
   `List Char`); where the code manipulates characters we work on
   `List Char` directly.
 - Dictionaries produced by `xmltodict` are modelled with typed records
   holding exactly the keys the code reads; XML attribute values under
   `@`-prefixed keys are always strings, as `xmltodict` guarantees.
 - A value of unexpected dynamic shape (a bare string where the code
   expects a dict, a text node under `type`) makes the Python code raise
   `AttributeError`; this is modelled with `Except PyErr` or an error flag.
 - `Char.toLower` / our ASCII lower-casing agree with Python `str.lower`
   on every character that can actually reach the call site.
-/

namespace GGM

/-- Contiguous-substring test on character lists. -/
def listInfix (pat : List Char) : List Char → Bool
  | [] => pat.isEmpty
  | c :: cs => pat.isPrefixOf (c :: cs) || listInfix pat cs

/-- Python `pat in s` for strings: substring test. -/
def pySubstr (pat s : String) : Bool := listInfix pat.toList s.toList

/-- Python `str.isdigit` for ASCII strings: non-empty and every character
is one of the decimal digits 0-9. -/
def pyIsDigit (s : String) : Bool :=
  !s.toList.isEmpty && s.toList.all (fun c => '0' ≤ c && c ≤ '9')

/-- Numeric value of a digit string (the value Python `int` returns on a
string of decimal digits). -/
def digitsVal (l : List Char) : Nat :=
  l.foldl (fun a c => 10 * a + (c.toNat - '0'.toNat)) 0

/-- Python `int(s)` on an all-digit string. -/
def pyIntOfDigits (s : String) : Nat := digitsVal s.toList

/-- Strict integer parse used to read the claim texts: an optional minus
sign followed by at least one decimal digit (a plain digit string is
never sign-prefixed, so the two branches are disjoint). -/
def parseInt? (s : String) : Option Int :=
  if pyIsDigit s then some ((pyIntOfDigits s : Int))
  else
    match s.toList with
    | '-' :: rest =>
        if !rest.isEmpty && rest.all (fun c => '0' ≤ c && c ≤ '9') then
          some (-(digitsVal rest : Int))
        else none
    | _ => none

/-- ASCII lower-casing of one character; agrees with Python `str.lower`
on every ASCII character. -/
def lowerAscii (c : Char) : Char :=
  if 'A' ≤ c && c ≤ 'Z' then Char.ofNat (c.toNat + 32) else c

/-- Python `str.lower`, restricted to ASCII (every character the
converter compares against is ASCII). -/
def pyLower (s : String) : String := String.mk (s.toList.map lowerAscii)

/-- The scalar type/format/pattern decision chain of
`_create_property_definition` (convert_uml_to_schema.py lines 277-295),
applied to the already case-folded type name: the first matching branch
decides the JSON type, the optional `format` and the optional `pattern`. -/
def inferTypeRules (t : String) : String × Option String × Option String :=
  if pySubstr "date" t && !pySubstr "time" t then ("string", some "date", none)
  else if pySubstr "datetime" t || pySubstr "timestamp" t then ("string", some "date-time", none)
  else if pySubstr "email" t then ("string", some "email", none)
  else if pySubstr "uri" t then ("string", some "uri", none)
  else if pySubstr "bsn" t then ("string", none, some "^[0-9]{9}$")
  else if pySubstr "postcode" t then ("string", none, some "^[1-9][0-9]{3}[A-Z]{2}$")
  else if t = "integer" || t = "int" then ("integer", none, none)
  else if t = "double" || t = "float" || t = "decimal" then ("number", none, none)
  else if t = "boolean" then ("boolean", none, none)
  else ("string", none, none)

/-- The Type & Format Inferencer as the code runs it: an empty type name
skips the table entirely (the `if type_name:` guard, line 276) and keeps
the default `string`; otherwise the name is lower-cased and matched
against the rule chain. -/
def inferTypeFormatPattern (type_name : String) : String × Option String × Option String :=
  if type_name = "" then ("string", none, none)
  else inferTypeRules (pyLower type_name)

/-- The ten-rule decision table exactly as §4.2 of the specification words
it: case-fold the raw declared type name, check the rules in order, first
match wins, and any unmatched input degrades to plain string with no
format or pattern. -/
def specTypeTable (raw : String) : String × Option String × Option String :=
  let s := pyLower raw
  if pySubstr "date" s && !pySubstr "time" s then ("string", some "date", none)
  else if pySubstr "datetime" s || pySubstr "timestamp" s then ("string", some "date-time", none)
  else if pySubstr "email" s then ("string", some "email", none)
  else if pySubstr "uri" s then ("string", some "uri", none)
  else if pySubstr "bsn" s then ("string", none, some "^[0-9]{9}$")
  else if pySubstr "postcode" s then ("string", none, some "^[1-9][0-9]{3}[A-Z]{2}$")
  else if s = "integer" || s = "int" then ("integer", none, none)
  else if s = "double" || s = "float" || s = "decimal" then ("number", none, none)
  else if s = "boolean" then ("boolean", none, none)
  else ("string", none, none)

/-- C4: the Type & Format Inferencer is a total function: on every input
string (the empty string and unrecognized tokens included) it agrees with
the ten-rule first-match decision table of the specification, defaulting
to plain string with no format or pattern. -/
theorem C4_type_inferencer_is_spec_table (raw : String) :
    inferTypeFormatPattern raw = specTypeTable raw := by
  by_cases h : raw = ""
  · subst h; decide
  · simp only [inferTypeFormatPattern, if_neg h]
    rfl

/-- Python exception surrogate: the converter only ever distinguishes
failure from success, never the exception payload. -/
inductive PyErr where
  | attributeError
deriving DecidableEq, Repr

/-- The value under the `type` key of an attribute dict: a dict whose
`@name` may be absent, or a value of another shape (bare text node) on
which `type_info.get` raises. -/
inductive TypeNode where
  | tdict (name? : Option String)
  | text (s : String)
deriving DecidableEq, Repr

/-- One entry of a `taggedValue` list: a dict with optional `@key` and
`@value` (entries of any other shape are silently skipped by
`_get_tagged_values`). -/
inductive TaggedNode where
  | tdict (key? : Option String) (value? : Option String)
  | text (s : String)
deriving DecidableEq, Repr

/-- An `xmltodict` attribute dict, holding exactly the keys that
`_create_property_definition` and `_convert_class_to_schema` read.
`association` records presence of the `association` key (the code only
tests membership).  `taggedValue?` is the nonempty entry list after the
single-entry wrap of `_get_tagged_values` (xmltodict maps one child to
the node itself, several to a list; a present key owns at least one). -/
structure AttrDict where
  name? : Option String := none
  documentation? : Option String := none
  type? : Option TypeNode := none
  lowerBound? : Option String := none
  upperBound? : Option String := none
  association : Bool := false
  taggedValue? : Option (TaggedNode × List TaggedNode) := none
deriving DecidableEq, Repr

/-- One entry of `ownedAttribute`: an attribute dict, or a value of
another shape (e.g. a bare text node).  On a non-dict the `isinstance`
check of `_convert_class_to_schema` falls into the ElementTree branch,
whose first `attr.get` call raises on such a value. -/
inductive AttrNode where
  | adict (a : AttrDict)
  | text (s : String)
deriving DecidableEq, Repr

/-- A JSON Schema property definition as the converter builds it:
`items` nests the scalar definition of a multi-valued attribute and
`tagged` models the `x-uml-tagged-value` key (`[]` = key absent). -/
inductive PropDef where
  | mk (type : String) (description : Option String) (format : Option String)
       (pattern : Option String) (items : Option PropDef) (minItems : Option Nat)
       (tagged : List (String × String))

def PropDef.type : PropDef → String
  | .mk t _ _ _ _ _ _ => t

def PropDef.description : PropDef → Option String
  | .mk _ d _ _ _ _ _ => d

def PropDef.format : PropDef → Option String
  | .mk _ _ f _ _ _ _ => f

def PropDef.pattern : PropDef → Option String
  | .mk _ _ _ p _ _ _ => p

def PropDef.items : PropDef → Option PropDef
  | .mk _ _ _ _ i _ _ => i

def PropDef.minItems : PropDef → Option Nat
  | .mk _ _ _ _ _ m _ => m

def PropDef.tagged : PropDef → List (String × String)
  | .mk _ _ _ _ _ _ tv => tv

/-- `prop_def['x-uml-tagged-value'] = tvs` (line 383). -/
def PropDef.setTagged : PropDef → List (String × String) → PropDef
  | .mk t d f p i m _, tvs => .mk t d f p i m tvs

/-- `attr.get('type', {}).get('@name', '')` (lines 254-255): an absent
key defaults to an empty dict whose lookup yields the empty string; a
dict yields its optional `@name`; any other shape raises. -/
def typeNameOf : Option TypeNode → Except PyErr String
  | none => .ok ""
  | some (.tdict n?) => .ok (n?.getD "")
  | some (.text _) => .error .attributeError

/-- The scalar property definition (lines 267-295): the documentation if
non-empty, else the generated fallback; default type `string`; then the
type/format/pattern table. -/
def scalarPropDef (name doc type_name : String) : PropDef :=
  let description := if doc ≠ "" then doc else "Property " ++ name
  let r := inferTypeFormatPattern type_name
  .mk r.1 (some description) r.2.1 r.2.2 none none []

/-- The multiplicity test of line 298:
`upper == '*' or (upper.isdigit() and int(upper) > 1)`. -/
def multGT1 (upper : String) : Bool :=
  upper = "*" || (pyIsDigit upper && pyIntOfDigits upper > 1)

/-- `minItems` of line 302: `int(lower) if lower.isdigit() else 0`. -/
def minItemsCode (lower : String) : Nat :=
  if pyIsDigit lower then pyIntOfDigits lower else 0

/-- `_create_property_definition` (lines 241-305), dict branch: default
the bounds, build the scalar definition, and wrap it in an array when
the upper bound indicates multiplicity above one. -/
def create_property_definition (attr : AttrDict) : Except PyErr PropDef := do
  let name := attr.name?.getD ""
  let doc := attr.documentation?.getD ""
  let type_name ← typeNameOf attr.type?
  let lower := attr.lowerBound?.getD "0"
  let upper := attr.upperBound?.getD "1"
  let prop_def := scalarPropDef name doc type_name
  if multGT1 upper then
    return PropDef.mk "array" none none none (some prop_def) (some (minItemsCode lower)) []
  else
    return prop_def

theorem ite_fst_ne {c : Prop} [inst : Decidable c]
    {a b : String × Option String × Option String}
    (ha : a.1 ≠ "array") (hb : b.1 ≠ "array") :
    (if c then a else b).1 ≠ "array" := by
  by_cases h : c
  · rwa [if_pos h]
  · rwa [if_neg h]

/-- The scalar table never yields the JSON type `array`. -/
theorem inferType_fst_ne_array (tn : String) :
    (inferTypeFormatPattern tn).1 ≠ "array" := by
  unfold inferTypeFormatPattern inferTypeRules
  refine ite_fst_ne (by decide) ?_
  refine ite_fst_ne (by decide) ?_
  refine ite_fst_ne (by decide) ?_
  refine ite_fst_ne (by decide) ?_
  refine ite_fst_ne (by decide) ?_
  refine ite_fst_ne (by decide) ?_
  refine ite_fst_ne (by decide) ?_
  refine ite_fst_ne (by decide) ?_
  refine ite_fst_ne (by decide) ?_
  refine ite_fst_ne (by decide) ?_
  decide

/-- The code's `minItems` (`int(lower) if lower.isdigit() else 0`) equals
the claim formula `max 0 (lowerBound parsed as integer, defaulting to 0)`. -/
theorem minItemsCode_eq_claim (lower : String) :
    minItemsCode lower = (max 0 ((parseInt? lower).getD 0)).toNat := by
  unfold minItemsCode parseInt?
  by_cases h : pyIsDigit lower = true
  · rw [if_pos h, if_pos h]
    simp only [Option.getD_some]
    rw [max_eq_right (by positivity)]
    simp
  · rw [if_neg h, if_neg h]
    split
    · split
      · simp only [Option.getD_some]
        rw [max_eq_left (by simp)]
        simp
      · simp
    · simp

/-- C1: whenever the upper bound indicates multiplicity above one (the
unbounded sentinel `*` included) the produced definition is a top-level
array with the scalar definition nested under `items` and `minItems`
equal to `max 0 (lowerBound parsed as integer, defaulting to 0)`; every
other attribute gets the scalar definition directly, and an array is
never nested inside an array. -/
theorem C1_multiplicity_array_wrapping (attr : AttrDict) (p : PropDef)
    (h : create_property_definition attr = .ok p) :
    (multGT1 (attr.upperBound?.getD "1") = true →
      ∃ scalar, p.type = "array" ∧ p.items = some scalar ∧
        scalar.type ≠ "array" ∧ scalar.items = none ∧
        p.minItems = some ((max 0 ((parseInt? (attr.lowerBound?.getD "0")).getD 0)).toNat)) ∧
    (multGT1 (attr.upperBound?.getD "1") = false →
      p.items = none ∧ p.type ≠ "array" ∧ p.minItems = none) := by
  unfold create_property_definition at h
  cases htn : typeNameOf attr.type? with
  | error e => rw [htn] at h; exact absurd h (by simp [Bind.bind, Except.bind])
  | ok tn =>
    rw [htn] at h
    simp only [Bind.bind, Except.bind] at h
    by_cases hm : multGT1 (attr.upperBound?.getD "1") = true
    · rw [if_pos hm] at h
      simp only [pure, Except.pure, Except.ok.injEq] at h
      subst h
      refine ⟨fun _ => ⟨scalarPropDef (attr.name?.getD "") (attr.documentation?.getD "") tn,
        rfl, rfl, ?_, rfl, ?_⟩, fun hc => by rw [hm] at hc; cases hc⟩
      · simpa [scalarPropDef, PropDef.type] using inferType_fst_ne_array tn
      · rw [PropDef.minItems, minItemsCode_eq_claim]
    · rw [if_neg hm] at h
      simp only [pure, Except.pure, Except.ok.injEq] at h
      subst h
      refine ⟨fun hc => absurd hc hm, fun _ => ⟨rfl, ?_, rfl⟩⟩
      simpa [scalarPropDef, PropDef.type] using inferType_fst_ne_array tn

/-- Witness for C1 at a concrete multi-valued attribute. -/
theorem C1_multiplicity_array_wrapping_witness :
    (multGT1 ((({ lowerBound? := some "2", upperBound? := some "*" } : AttrDict)).upperBound?.getD "1") = true →
      ∃ scalar, (PropDef.mk "array" none none none
          (some (PropDef.mk "string" (some "Property ") none none none none [])) (some 2) []).type = "array" ∧
        (PropDef.mk "array" none none none
          (some (PropDef.mk "string" (some "Property ") none none none none [])) (some 2) []).items = some scalar ∧
        scalar.type ≠ "array" ∧ scalar.items = none ∧
        (PropDef.mk "array" none none none
          (some (PropDef.mk "string" (some "Property ") none none none none [])) (some 2) []).minItems =
          some ((max 0 ((parseInt? ((({ lowerBound? := some "2", upperBound? := some "*" } : AttrDict)).lowerBound?.getD "0")).getD 0)).toNat)) ∧
    (multGT1 ((({ lowerBound? := some "2", upperBound? := some "*" } : AttrDict)).upperBound?.getD "1") = false →
      (PropDef.mk "array" none none none
          (some (PropDef.mk "string" (some "Property ") none none none none [])) (some 2) []).items = none ∧
        (PropDef.mk "array" none none none
          (some (PropDef.mk "string" (some "Property ") none none none none [])) (some 2) []).type ≠ "array" ∧
        (PropDef.mk "array" none none none
          (some (PropDef.mk "string" (some "Property ") none none none none [])) (some 2) []).minItems = none) :=
  C1_multiplicity_array_wrapping { lowerBound? := some "2", upperBound? := some "*" }
    (PropDef.mk "array" none none none
      (some (PropDef.mk "string" (some "Property ") none none none none [])) (some 2) []) (by rfl)

/-- Association-list update with Python dict semantics: an existing key
keeps its position and receives the new value, a fresh key is appended. -/
def pyDictSet {α : Type} (m : List (String × α)) (k : String) (v : α) : List (String × α) :=
  if m.any (fun e => e.1 = k) then m.map (fun e => if e.1 = k then (k, v) else e)
  else m ++ [(k, v)]

/-- The tagged-value loop body of `_get_tagged_values` (lines 325-330):
non-dict entries are skipped, missing keys default to the empty string,
and a pair is stored only when both key and value are non-empty. -/
def addTaggedNode (m : List (String × String)) : TaggedNode → List (String × String)
  | .tdict k? v? =>
      let key := k?.getD ""
      let value := v?.getD ""
      if key ≠ "" ∧ value ≠ "" then pyDictSet m key value else m
  | .text _ => m

/-- `_get_tagged_values`, dict branch (lines 318-330): absent key means
no tagged values; a single entry was wrapped into a one-element list. -/
def get_tagged_values_dict (taggedValue? : Option (TaggedNode × List TaggedNode)) :
    List (String × String) :=
  match taggedValue? with
  | none => []
  | some (t, ts) => (t :: ts).foldl addTaggedNode []

/-- An ElementTree element: tag, XML attributes, children in document
order. -/
inductive ETElem where
  | mk (tag : String) (attrs : List (String × String)) (children : List ETElem)

def ETElem.tag : ETElem → String
  | .mk t _ _ => t

def ETElem.children : ETElem → List ETElem
  | .mk _ _ cs => cs

/-- `element.get(key)`: XML attribute lookup. -/
def ETElem.get : ETElem → String → Option String
  | .mk _ attrs _, k => attrs.lookup k

mutual
/-- `element.findall('.//tag')`: every strict descendant with the given
tag, in document order (a matching element precedes its own matching
descendants). -/
def findallDesc (tag : String) : ETElem → List ETElem
  | .mk _ _ cs => findallDescList tag cs

def findallDescList (tag : String) : List ETElem → List ETElem
  | [] => []
  | c :: cs => (if c.tag = tag then [c] else []) ++ findallDesc tag c ++ findallDescList tag cs
end

/-- `_get_tagged_values`, ElementTree branch (lines 331-337): each
`taggedValue` descendant contributes its `key`/`value` attributes under
the same emptiness guard as the dict branch (`addTaggedNode` on the
extracted pair is exactly the loop body of lines 333-337). -/
def get_tagged_values_et (element : ETElem) : List (String × String) :=
  (findallDesc "taggedValue" element).foldl
    (fun m tv => addTaggedNode m (.tdict (tv.get "key") (tv.get "value"))) []

theorem pyDictSet_mem {α : Type} {m : List (String × α)} {k : String} {v : α}
    {p : String × α} (h : p ∈ pyDictSet m k v) : p ∈ m ∨ p = (k, v) := by
  unfold pyDictSet at h
  split at h
  · rcases List.mem_map.mp h with ⟨e, he, heq⟩
    by_cases hk : e.1 = k
    · right; rw [if_pos hk] at heq; exact heq.symm
    · left; rw [if_neg hk] at heq; exact heq ▸ he
  · rcases List.mem_append.mp h with h1 | h1
    · exact Or.inl h1
    · exact Or.inr (List.mem_singleton.mp h1)

theorem addTaggedNode_mem {m : List (String × String)} {t : TaggedNode}
    {p : String × String} (h : p ∈ addTaggedNode m t) :
    p ∈ m ∨ (p.1 ≠ "" ∧ p.2 ≠ "") := by
  cases t with
  | text s => exact Or.inl h
  | tdict k? v? =>
    simp only [addTaggedNode] at h
    split at h
    · rename_i hc
      rcases pyDictSet_mem h with h1 | h1
      · exact Or.inl h1
      · right; rw [h1]; exact hc
    · exact Or.inl h

theorem foldl_addTaggedNode_mem {l : List TaggedNode} :
    ∀ {m : List (String × String)} {p : String × String},
      (∀ q ∈ m, q.1 ≠ "" ∧ q.2 ≠ "") →
      p ∈ l.foldl addTaggedNode m → p.1 ≠ "" ∧ p.2 ≠ "" := by
  induction l with
  | nil => intro m p hm hp; exact hm p hp
  | cons t ts ih =>
    intro m p hm hp
    refine ih ?_ hp
    intro q hq
    rcases addTaggedNode_mem hq with h1 | h1
    · exact hm q h1
    · exact h1

theorem foldl_addTaggedPair_mem {l : List ETElem} :
    ∀ {m : List (String × String)} {p : String × String},
      (∀ q ∈ m, q.1 ≠ "" ∧ q.2 ≠ "") →
      p ∈ l.foldl (fun m tv => addTaggedNode m (.tdict (tv.get "key") (tv.get "value"))) m →
      p.1 ≠ "" ∧ p.2 ≠ "" := by
  induction l with
  | nil => intro m p hm hp; exact hm p hp
  | cons t ts ih =>
    intro m p hm hp
    refine ih ?_ hp
    intro q hq
    rcases addTaggedNode_mem hq with h1 | h1
    · exact hm q h1
    · exact h1

/-- C9: a tagged-value mapping extracted by either branch of
`_get_tagged_values` never holds an entry whose key or whose value is the
empty string: such pairs are silently dropped. -/
theorem C9_tagged_values_never_empty :
    (∀ (tv? : Option (TaggedNode × List TaggedNode)) (k v : String),
        (k, v) ∈ get_tagged_values_dict tv? → k ≠ "" ∧ v ≠ "") ∧
    (∀ (e : ETElem) (k v : String),
        (k, v) ∈ get_tagged_values_et e → k ≠ "" ∧ v ≠ "") := by
  constructor
  · intro tv? k v h
    cases tv? with
    | none => cases h
    | some t =>
      exact foldl_addTaggedNode_mem (by intro q hq; cases hq) h
  · intro e k v h
    exact foldl_addTaggedPair_mem (by intro q hq; cases hq) h

/-- Witness for C9 at a concrete tagged-value entry in each branch. -/
theorem C9_tagged_values_never_empty_witness :
    (("stereotype" : String) ≠ "" ∧ ("GGM" : String) ≠ "") ∧
    (("domein" : String) ≠ "" ∧ ("OOV" : String) ≠ "") :=
  ⟨C9_tagged_values_never_empty.1 (some (.tdict (some "stereotype") (some "GGM"), []))
      "stereotype" "GGM" (by decide),
   C9_tagged_values_never_empty.2
      (.mk "ownedAttribute" [] [.mk "taggedValue" [("key", "domein"), ("value", "OOV")] []])
      "domein" "OOV" (by decide)⟩

/-- Python `str.strip()` on ASCII whitespace. -/
def pyIsSpace (c : Char) : Bool :=
  c = ' ' || c = '\t' || c = '\n' || c = '\r' || c = '\x0b' || c = '\x0c'

def pyStrip (s : String) : String :=
  String.mk (((s.toList.dropWhile pyIsSpace).reverse.dropWhile pyIsSpace).reverse)

/-- An `xmltodict` class or component dict: the keys
`_convert_class_to_schema` reads.  `ownedAttribute?`/`taggedValue?` model
a present key as a nonempty entry list (single child wrapped by the code). -/
structure ClassDict where
  name? : Option String := none
  documentation? : Option String := none
  ownedAttribute? : Option (AttrNode × List AttrNode) := none
  taggedValue? : Option (TaggedNode × List TaggedNode) := none

/-- `class_elem.get('ownedAttribute', [])` plus the single-element wrap
(lines 353-355). -/
def attrsOf (c : ClassDict) : List AttrNode :=
  match c.ownedAttribute? with
  | none => []
  | some (a, rest) => a :: rest

/-- `_get_class_description`, dict branch (lines 226-231). -/
def get_class_description_dict (c : ClassDict) : String :=
  let name := c.name?.getD ""
  let doc := c.documentation?.getD ""
  if doc ≠ "" then pyStrip doc else "Represents a " ++ name ++ " in the system"

/-- One generated JSON Schema document (lines 397-414).  The constant
`$schema` and `type` keys are carried literally; `required = []` and
`taggedValues = []` model those keys being omitted. -/
structure Schema where
  schemaDialect : String
  objectType : String
  title : String
  description : String
  properties : List (String × PropDef)
  required : List String
  taggedValues : List (String × String)

/-- The attribute loop of `_convert_class_to_schema` (lines 365-394),
dict branch, threading the `properties` and `required` accumulators.  A
non-dict attribute entry falls into the ElementTree branch, whose first
`attr.get` call raises on it. -/
def convertAttrLoop : List AttrNode → List (String × PropDef) → List String →
    Except PyErr (List (String × PropDef) × List String)
  | [], props, req => .ok (props, req)
  | .text _ :: _, _, _ => .error .attributeError
  | .adict a :: rest, props, req =>
      let attr_name := a.name?.getD ""
      if a.association then convertAttrLoop rest props req
      else if attr_name = "" then convertAttrLoop rest props req
      else
        match create_property_definition a with
        | .error e => .error e
        | .ok pd =>
            let tvs := get_tagged_values_dict a.taggedValue?
            let pd := if tvs ≠ [] then pd.setTagged tvs else pd
            let props := pyDictSet props attr_name pd
            let lower := a.lowerBound?.getD "0"
            let req := if lower ≠ "0" then req ++ [attr_name] else req
            convertAttrLoop rest props req

/-- `_convert_class_to_schema` (lines 341-414), dict branch. -/
def convert_class_to_schema (c : ClassDict) : Except PyErr Schema := do
  let name := c.name?.getD ""
  let description := get_class_description_dict c
  let (properties, required) ← convertAttrLoop (attrsOf c) [] []
  return { schemaDialect := "http://json-schema.org/draft-07/schema#"
           objectType := "object"
           title := name
           description := description
           properties := properties
           required := required
           taggedValues := get_tagged_values_dict c.taggedValue? }

/-- The claim reading of "lowerBound is a strictly positive integer". -/
def strictlyPositiveInt (s : String) : Bool :=
  match parseInt? s with
  | some n => decide (0 < n)
  | none => false

/-- The names the attribute loop appends to `required`: non-association
dict attributes with a non-empty name whose defaulted lower bound differs
from the literal string "0". -/
def requiredNames (attrs : List AttrNode) : List String :=
  attrs.filterMap fun
    | .adict a =>
        if ¬a.association ∧ a.name?.getD "" ≠ "" ∧ a.lowerBound?.getD "0" ≠ "0" then
          some (a.name?.getD "")
        else none
    | .text _ => none

/-- The names the attribute loop inserts into `properties`. -/
def propertyNames (attrs : List AttrNode) : List String :=
  attrs.filterMap fun
    | .adict a =>
        if ¬a.association ∧ a.name?.getD "" ≠ "" then some (a.name?.getD "") else none
    | .text _ => none

theorem convertAttrLoop_required (attrs : List AttrNode) :
    ∀ props req props2 req2,
      convertAttrLoop attrs props req = .ok (props2, req2) →
      req2 = req ++ requiredNames attrs := by
  induction attrs with
  | nil =>
    intro props req props2 req2 h
    rw [convertAttrLoop] at h
    simp only [Except.ok.injEq, Prod.mk.injEq] at h
    simp [requiredNames, ← h.2]
  | cons a rest ih =>
    intro props req props2 req2 h
    cases a with
    | text s => rw [convertAttrLoop] at h; cases h
    | adict d =>
      rw [convertAttrLoop] at h
      dsimp only at h
      by_cases h1 : d.association
      · rw [if_pos h1] at h
        rw [ih _ _ _ _ h]
        simp [requiredNames, h1]
      · rw [if_neg h1] at h
        by_cases h2 : d.name?.getD "" = ""
        · rw [if_pos h2] at h
          rw [ih _ _ _ _ h]
          simp [requiredNames, h1, h2]
        · rw [if_neg h2] at h
          cases hc : create_property_definition d with
          | error e => rw [hc] at h; cases h
          | ok pd =>
            rw [hc] at h
            dsimp only at h
            by_cases h3 : d.lowerBound?.getD "0" ≠ "0"
            · rw [if_pos h3] at h
              rw [ih _ _ _ _ h]
              simp [requiredNames, h1, h2, h3]
            · rw [if_neg h3] at h
              rw [ih _ _ _ _ h]
              simp [requiredNames, h1, h2, h3]

theorem keymem_pyDictSet {α : Type} {m : List (String × α)} {k n : String} {v : α}
    (h : ∃ w, (n, w) ∈ m) : ∃ w, (n, w) ∈ pyDictSet m k v := by
  obtain ⟨w, hw⟩ := h
  unfold pyDictSet
  split
  · by_cases hk : n = k
    · subst hk
      exact ⟨v, List.mem_map.mpr ⟨(n, w), hw, by simp⟩⟩
    · exact ⟨w, List.mem_map.mpr ⟨(n, w), hw, by simp [hk]⟩⟩
  · exact ⟨w, List.mem_append_left _ hw⟩

theorem keymem_pyDictSet_self {α : Type} (m : List (String × α)) (k : String) (v : α) :
    ∃ w, (k, w) ∈ pyDictSet m k v := by
  unfold pyDictSet
  split
  · rename_i hany
    obtain ⟨e, he, hek⟩ := List.any_eq_true.mp hany
    exact ⟨v, List.mem_map.mpr ⟨e, he, by simp [of_decide_eq_true hek]⟩⟩
  · exact ⟨v, List.mem_append_right _ (List.mem_singleton.mpr rfl)⟩

theorem convertAttrLoop_required_keys (attrs : List AttrNode) :
    ∀ props req props2 req2,
      convertAttrLoop attrs props req = .ok (props2, req2) →
      (∀ n ∈ req, ∃ pd, (n, pd) ∈ props) →
      ∀ n ∈ req2, ∃ pd, (n, pd) ∈ props2 := by
  induction attrs with
  | nil =>
    intro props req props2 req2 h hin
    rw [convertAttrLoop] at h
    simp only [Except.ok.injEq, Prod.mk.injEq] at h
    rw [← h.1, ← h.2]
    exact hin
  | cons a rest ih =>
    intro props req props2 req2 h hin
    cases a with
    | text s => rw [convertAttrLoop] at h; cases h
    | adict d =>
      rw [convertAttrLoop] at h
      dsimp only at h
      by_cases h1 : d.association
      · rw [if_pos h1] at h
        exact ih _ _ _ _ h hin
      · rw [if_neg h1] at h
        by_cases h2 : d.name?.getD "" = ""
        · rw [if_pos h2] at h
          exact ih _ _ _ _ h hin
        · rw [if_neg h2] at h
          cases hc : create_property_definition d with
          | error e => rw [hc] at h; cases h
          | ok pd =>
            rw [hc] at h
            dsimp only at h
            have hin2 : ∀ n ∈ (if d.lowerBound?.getD "0" ≠ "0" then req ++ [d.name?.getD ""] else req),
                ∃ w, (n, w) ∈ pyDictSet props (d.name?.getD "")
                  (if get_tagged_values_dict d.taggedValue? ≠ [] then
                    pd.setTagged (get_tagged_values_dict d.taggedValue?) else pd) := by
              intro n hn
              by_cases h3 : d.lowerBound?.getD "0" ≠ "0"
              · rw [if_pos h3] at hn
                rcases List.mem_append.mp hn with hn1 | hn1
                · exact keymem_pyDictSet (hin n hn1)
                · rw [List.mem_singleton.mp hn1]
                  exact keymem_pyDictSet_self _ _ _
              · rw [if_neg h3] at hn
                exact keymem_pyDictSet (hin n hn)
            exact ih _ _ _ _ h hin2

theorem requiredNames_cons_text (s : String) (rest : List AttrNode) :
    requiredNames (AttrNode.text s :: rest) = requiredNames rest := by
  unfold requiredNames
  rw [List.filterMap_cons]

theorem propertyNames_cons_text (s : String) (rest : List AttrNode) :
    propertyNames (AttrNode.text s :: rest) = propertyNames rest := by
  unfold propertyNames
  rw [List.filterMap_cons]

theorem requiredNames_cons_adict (d : AttrDict) (rest : List AttrNode) :
    requiredNames (AttrNode.adict d :: rest) =
      (if ¬d.association ∧ d.name?.getD "" ≠ "" ∧ d.lowerBound?.getD "0" ≠ "0" then
        [d.name?.getD ""] else []) ++ requiredNames rest := by
  unfold requiredNames
  rw [List.filterMap_cons]
  dsimp only
  by_cases hcond : ¬d.association ∧ d.name?.getD "" ≠ "" ∧ d.lowerBound?.getD "0" ≠ "0"
  · rw [if_pos hcond, if_pos hcond]; rfl
  · rw [if_neg hcond, if_neg hcond]; rfl

theorem propertyNames_cons_adict (d : AttrDict) (rest : List AttrNode) :
    propertyNames (AttrNode.adict d :: rest) =
      (if ¬d.association ∧ d.name?.getD "" ≠ "" then [d.name?.getD ""] else []) ++
        propertyNames rest := by
  unfold propertyNames
  rw [List.filterMap_cons]
  dsimp only
  by_cases hcond : ¬d.association ∧ d.name?.getD "" ≠ ""
  · rw [if_pos hcond, if_pos hcond]; rfl
  · rw [if_neg hcond, if_neg hcond]; rfl

theorem requiredNames_sublist (attrs : List AttrNode) :
    List.Sublist (requiredNames attrs) (propertyNames attrs) := by
  induction attrs with
  | nil => exact List.Sublist.refl _
  | cons a rest ih =>
    cases a with
    | text s =>
      rw [requiredNames_cons_text, propertyNames_cons_text]
      exact ih
    | adict d =>
      rw [requiredNames_cons_adict, propertyNames_cons_adict]
      by_cases ha : d.association
      · rw [if_neg (by simp [ha]), if_neg (by simp [ha])]
        simpa using ih
      · by_cases hn : d.name?.getD "" = ""
        · rw [if_neg (by simp [hn]), if_neg (by simp [hn])]
          simpa using ih
        · by_cases hl : d.lowerBound?.getD "0" = "0"
          · rw [if_neg (by simp [hl]), if_pos ⟨ha, hn⟩]
            simp only [List.nil_append, List.singleton_append]
            exact List.Sublist.cons _ ih
          · rw [if_pos ⟨ha, hn, hl⟩, if_pos ⟨ha, hn⟩]
            simp only [List.singleton_append]
            exact List.Sublist.cons₂ _ ih

/-- Destructure a successful `convert_class_to_schema` run. -/
theorem convert_class_to_schema_ok {c : ClassDict} {s : Schema}
    (h : convert_class_to_schema c = .ok s) :
    ∃ props req, convertAttrLoop (attrsOf c) [] [] = .ok (props, req) ∧
      s.properties = props ∧ s.required = req := by
  unfold convert_class_to_schema at h
  cases hl : convertAttrLoop (attrsOf c) [] [] with
  | error e =>
    rw [hl] at h
    exact absurd h (by simp [Bind.bind, Except.bind])
  | ok pr =>
    rw [hl] at h
    simp only [Bind.bind, Except.bind, pure, Except.pure, Except.ok.injEq] at h
    exact ⟨pr.1, pr.2, rfl, by rw [← h], by rw [← h]⟩

/-- C2 (amended): a non-association attribute with a non-empty name is
added to `required` iff its defaulted `lowerBound` string differs from
the literal "0" — the code has no explicit required flag and never parses
the bound, so any non-"0" string (numeric or not) marks it required. -/
theorem C2_required_iff_lower_string_ne_zero (c : ClassDict) (s : Schema)
    (h : convert_class_to_schema c = .ok s) :
    s.required = requiredNames (attrsOf c) ∧
    (∀ n : String, n ∈ s.required ↔
      ∃ a : AttrDict, AttrNode.adict a ∈ attrsOf c ∧ ¬a.association ∧
        a.name?.getD "" = n ∧ n ≠ "" ∧ a.lowerBound?.getD "0" ≠ "0") := by
  obtain ⟨props, req, hl, hp, hr⟩ := convert_class_to_schema_ok h
  have hreq : s.required = requiredNames (attrsOf c) := by
    rw [hr, convertAttrLoop_required _ _ _ _ _ hl]; simp
  refine ⟨hreq, fun n => ?_⟩
  rw [hreq, requiredNames, List.mem_filterMap]
  constructor
  · rintro ⟨x, hx, hfx⟩
    cases x with
    | text str => simp at hfx
    | adict a =>
      dsimp only at hfx
      by_cases hcond : ¬a.association ∧ a.name?.getD "" ≠ "" ∧ a.lowerBound?.getD "0" ≠ "0"
      · rw [if_pos hcond] at hfx
        obtain ⟨hc1, hc2, hc3⟩ := hcond
        injection hfx with hfx
        exact ⟨a, hx, hc1, hfx, hfx ▸ hc2, hc3⟩
      · rw [if_neg hcond] at hfx; cases hfx
  · rintro ⟨a, ha, h1, h2, h3, h4⟩
    refine ⟨AttrNode.adict a, ha, ?_⟩
    dsimp only
    rw [if_pos ⟨h1, by rw [h2]; exact h3, h4⟩, h2]

/-- A concrete one-attribute class used to instantiate C2. -/
def exClassC2 : ClassDict :=
  { name? := some "K"
    ownedAttribute? := some (.adict { name? := some "a", lowerBound? := some "1" }, []) }

/-- The schema the converter produces for `exClassC2`. -/
def exSchemaC2 : Schema :=
  { schemaDialect := "http://json-schema.org/draft-07/schema#"
    objectType := "object"
    title := "K"
    description := "Represents a K in the system"
    properties := [("a", PropDef.mk "string" (some "Property a") none none none none [])]
    required := ["a"]
    taggedValues := [] }

/-- Witness for C2 at a concrete one-attribute class. -/
theorem C2_required_iff_lower_string_ne_zero_witness :
    exSchemaC2.required = requiredNames (attrsOf exClassC2) ∧
    (∀ n : String, n ∈ exSchemaC2.required ↔
      ∃ a : AttrDict, AttrNode.adict a ∈ attrsOf exClassC2 ∧ ¬a.association ∧
        a.name?.getD "" = n ∧ n ≠ "" ∧ a.lowerBound?.getD "0" ≠ "0") :=
  C2_required_iff_lower_string_ne_zero exClassC2 exSchemaC2 rfl

/-- C2 counterexample: a lower bound that is not an integer at all (here
the string "abc") still lands the attribute in `required`, because the
code only compares the string against "0". -/
theorem C2_counterexample_non_numeric_lower :
    (convert_class_to_schema
        { ownedAttribute? := some (.adict { name? := some "a", lowerBound? := some "abc" }, []) }).map
        Schema.required = .ok ["a"] ∧
    strictlyPositiveInt "abc" = false :=
  ⟨rfl, rfl⟩

/-- C3 (amended): every name in `required` is a key of `properties`, and
`required` is duplicate-free whenever the inserted property names are
pairwise distinct — but two attributes sharing a name can make `required`
repeat it. -/
theorem C3_required_names_are_property_keys (c : ClassDict) (s : Schema)
    (h : convert_class_to_schema c = .ok s) :
    (∀ n ∈ s.required, ∃ pd, (n, pd) ∈ s.properties) ∧
    ((propertyNames (attrsOf c)).Nodup → s.required.Nodup) := by
  obtain ⟨props, req, hl, hp, hr⟩ := convert_class_to_schema_ok h
  constructor
  · intro n hn
    rw [hp]
    exact convertAttrLoop_required_keys _ _ _ _ _ hl (by intro x hx; cases hx) n (hr ▸ hn)
  · intro hnd
    rw [hr, convertAttrLoop_required _ _ _ _ _ hl]
    simp only [List.nil_append]
    exact ((requiredNames_sublist (attrsOf c)).nodup) hnd

/-- A concrete attribute-free class used to instantiate C3. -/
def exClassC3 : ClassDict := { name? := some "L" }

/-- The schema the converter produces for `exClassC3`. -/
def exSchemaC3 : Schema :=
  { schemaDialect := "http://json-schema.org/draft-07/schema#"
    objectType := "object"
    title := "L"
    description := "Represents a L in the system"
    properties := []
    required := []
    taggedValues := [] }

/-- Witness for C3 at a concrete attribute-free class. -/
theorem C3_required_names_are_property_keys_witness :
    (∀ n ∈ exSchemaC3.required, ∃ pd, (n, pd) ∈ exSchemaC3.properties) ∧
    ((propertyNames (attrsOf exClassC3)).Nodup → exSchemaC3.required.Nodup) :=
  C3_required_names_are_property_keys exClassC3 exSchemaC3 rfl

/-- C3 counterexample: two attributes named "a", both with lower bound
"1", let `required` list the name twice while `properties` keeps one key. -/
theorem C3_counterexample_duplicate_required :
    (convert_class_to_schema
        { ownedAttribute? := some (.adict { name? := some "a", lowerBound? := some "1" },
            [.adict { name? := some "a", lowerBound? := some "1" }]) }).map
        Schema.required = .ok ["a", "a"] ∧
    ¬ (["a", "a"] : List String).Nodup :=
  ⟨rfl, by decide⟩

/-- Python `str.replace(pat, rep)` for a one-character pattern: every
occurrence of the character is replaced. -/
def pyReplaceChar (pat : Char) (rep : List Char) : List Char → List Char
  | [] => []
  | c :: cs => if c = pat then rep ++ pyReplaceChar pat rep cs else c :: pyReplaceChar pat rep cs

/-- The aggregate OpenAPI document of `generate_openapi_spec` (identical
in convert_uml_to_schema.py lines 423-436 and generate_openapi.py lines
61-74): constant title/description, `paths` empty, and
`info.version = version_folder.name.replace('v', '')`. -/
structure ApiDocument where
  openapi : String
  infoTitle : String
  infoVersion : String
  infoDescription : String
  paths : List (String × Schema)
  schemas : List (String × Schema)

def generate_openapi_spec (version_folder_name : String)
    (schemas : List (String × Schema)) : ApiDocument :=
  { openapi := "3.0.0"
    infoTitle := "Gemeentelijk Gegevensmodel API"
    infoVersion := String.mk (pyReplaceChar 'v' [] version_folder_name.toList)
    infoDescription := "Generated from UML models"
    paths := []
    schemas := schemas }

theorem pyReplaceChar_nil_eq_filter (pat : Char) (l : List Char) :
    pyReplaceChar pat [] l = l.filter (fun c => c ≠ pat) := by
  induction l with
  | nil => rfl
  | cons c cs ih =>
    rw [pyReplaceChar, List.filter_cons]
    by_cases h : c = pat
    · rw [if_pos h, if_neg (by simp [h])]
      simpa using ih
    · rw [if_neg h, if_pos (by simp [h])]
      rw [ih]

/-- C8 counterexample: the version folder "v1.0-dev" yields
`info.version = "1.0-de"` — the non-leading v of "dev" is removed too,
against the claim that only a leading version-prefix character goes. -/
theorem C8_counterexample_non_leading_v :
    (generate_openapi_spec "v1.0-dev" []).infoVersion = "1.0-de" ∧
    (generate_openapi_spec "v1.0-dev" []).infoVersion ≠ "1.0-dev" :=
  ⟨rfl, by decide⟩

/-- C8 (amended): `info.version` is the version-folder identifier with
every occurrence of the character v removed (leading or not), all other
characters preserved in order (`str.replace` replaces all occurrences). -/
theorem C8_version_removes_every_v (name : String) (schemas : List (String × Schema)) :
    (generate_openapi_spec name schemas).infoVersion.toList =
      name.toList.filter (fun c => c ≠ 'v') := by
  show pyReplaceChar 'v' [] name.toList = name.toList.filter (fun c => c ≠ 'v')
  exact pyReplaceChar_nil_eq_filter 'v' name.toList

/-- A node of the `xmltodict` package tree handed to
`_process_package_elements`: a bare text node (on which `element.get`
raises), or an element dict carrying its `@xmi:type`, the class-level
keys, and the optional `packagedElement` children (the code wraps a
single child into a one-element list, so a present key is a list). -/
inductive PkgNode where
  | text (s : String)
  | node (cls : ClassDict) (xmiType? : Option String) (packagedElement? : Option (List PkgNode))

mutual
/-- `_process_package_elements` (lines 178-215) over an element list,
threading `self.schemas` and stopping at the first raised exception;
insertions made before the raise persist, exactly like the mutated
Python object state. -/
def processElems : List PkgNode → List (String × Schema) →
    List (String × Schema) × Option PyErr
  | [], m => (m, none)
  | e :: es, m =>
      match processOne e m with
      | (m2, none) => processElems es m2
      | (m2, some err) => (m2, some err)

/-- One iteration of the element loop (lines 192-215): recurse into
packages, convert classes unconditionally, convert components only when
they own attributes, and insert under the display name unless it
defaults to or equals "Unknown". -/
def processOne : PkgNode → List (String × Schema) →
    List (String × Schema) × Option PyErr
  | .text _, m => (m, some .attributeError)
  | .node cls xmiType? pk?, m =>
      let element_type := xmiType?.getD ""
      if element_type = "uml:Package" then
        match pk? with
        | some children => processElems children m
        | none => (m, none)
      else if element_type = "uml:Class" then
        match convert_class_to_schema cls with
        | .error e => (m, some e)
        | .ok schema =>
            let name := cls.name?.getD "Unknown"
            if name ≠ "Unknown" then (pyDictSet m name schema, none) else (m, none)
      else if element_type = "uml:Component" then
        match cls.ownedAttribute? with
        | some _ =>
            match convert_class_to_schema cls with
            | .error e => (m, some e)
            | .ok schema =>
                let name := cls.name?.getD "Unknown"
                if name ≠ "Unknown" then (pyDictSet m name schema, none) else (m, none)
        | none => (m, none)
      else (m, none)
end

/-- The driver loop of `main` (lines 473-480): each file runs under its
own try/except, so an exception raised while converting one file is
logged and the run continues with the next file, keeping every schema
accumulated up to the raise. -/
def processFiles : List (List PkgNode) → List (String × Schema) → List (String × Schema)
  | [], m => m
  | f :: fs, m => processFiles fs (processElems f m).1

/-- C7 counterexample: a file whose first class owns a malformed (bare
text) attribute entry raises during conversion; the second, perfectly
valid class "Good" of the same file is never converted, so nothing at
all is inserted — with per-class catching "Good" would have a schema. -/
theorem C7_counterexample_bad_class_aborts_file :
    processElems
      [PkgNode.node { ownedAttribute? := some (.text "stray", []) } (some "uml:Class") none,
       PkgNode.node { name? := some "Good" } (some "uml:Class") none] [] =
      ([], some PyErr.attributeError) ∧
    ((processElems [PkgNode.node { name? := some "Good" } (some "uml:Class") none] []).1.lookup
        "Good").isSome = true :=
  ⟨rfl, rfl⟩

/-- C7 (amended): a conversion failure for one class-like element is not
caught per class: the first failing element ends processing of the
remaining elements of the same file with the schema map exactly as it
stood at the failure, while the driver catches the exception per file,
so the following files are still processed against that map. -/
theorem C7_failure_aborts_rest_of_file (e : PkgNode) (es : List PkgNode)
    (fs : List (List PkgNode)) (m m2 : List (String × Schema)) (err : PyErr)
    (h : processOne e m = (m2, some err)) :
    processElems (e :: es) m = (m2, some err) ∧
    processFiles ((e :: es) :: fs) m = processFiles fs m2 := by
  have h1 : processElems (e :: es) m = (m2, some err) := by
    rw [processElems, h]
  refine ⟨h1, ?_⟩
  rw [processFiles, h1]

/-- Witness for C7 at the concrete failing file. -/
theorem C7_failure_aborts_rest_of_file_witness :
    processElems
      [PkgNode.node { ownedAttribute? := some (.text "stray", []) } (some "uml:Class") none,
       PkgNode.node { name? := some "Good" } (some "uml:Class") none] [] =
      ([], some PyErr.attributeError) ∧
    processFiles
      [[PkgNode.node { ownedAttribute? := some (.text "stray", []) } (some "uml:Class") none,
        PkgNode.node { name? := some "Good" } (some "uml:Class") none]] [] =
      processFiles [] [] :=
  C7_failure_aborts_rest_of_file
    (PkgNode.node { ownedAttribute? := some (.text "stray", []) } (some "uml:Class") none)
    [PkgNode.node { name? := some "Good" } (some "uml:Class") none]
    [] [] [] PyErr.attributeError rfl

/-- C10: in the package-walking path, a class or component element whose
display name is absent or equals "Unknown" is never inserted into the
schema collection; a component is converted only when it owns at least
one attribute (an absent `ownedAttribute` key means the element is
skipped without conversion), while a class with a proper name is
converted and inserted even with zero attributes. -/
theorem C10_unknown_names_and_component_attrs :
    (∀ (d : ClassDict) (pk : Option (List PkgNode)) (m : List (String × Schema)),
        (d.name? = none ∨ d.name? = some "Unknown") →
        (processOne (.node d (some "uml:Class") pk) m).1 = m ∧
        (processOne (.node d (some "uml:Component") pk) m).1 = m) ∧
    (∀ (d : ClassDict) (pk : Option (List PkgNode)) (m : List (String × Schema)),
        d.ownedAttribute? = none →
        processOne (.node d (some "uml:Component") pk) m = (m, none)) ∧
    (∀ (d : ClassDict) (pk : Option (List PkgNode)) (m : List (String × Schema)) (n : String),
        d.name? = some n → n ≠ "Unknown" → d.ownedAttribute? = none →
        ∃ s, convert_class_to_schema d = .ok s ∧
          processOne (.node d (some "uml:Class") pk) m = (pyDictSet m n s, none)) ∧
    (∀ (d : ClassDict) (pk : Option (List PkgNode)) (m : List (String × Schema))
        (n : String) (s : Schema),
        d.name? = some n → n ≠ "Unknown" → d.ownedAttribute?.isSome →
        convert_class_to_schema d = .ok s →
        processOne (.node d (some "uml:Component") pk) m = (pyDictSet m n s, none)) := by
  have hname : ∀ d : ClassDict, (d.name? = none ∨ d.name? = some "Unknown") →
      d.name?.getD "Unknown" = "Unknown" := by
    rintro d (h | h) <;> rw [h] <;> rfl
  refine ⟨?_, ?_, ?_, ?_⟩
  · intro d pk m hn
    constructor
    · rw [processOne.eq_def]
      dsimp only
      simp only [Option.getD_some]
      rw [if_neg (by decide), if_pos trivial]
      cases hc : convert_class_to_schema d with
      | error e => rfl
      | ok s =>
          dsimp only
          rw [hname d hn, if_neg (by simp)]
    · rw [processOne.eq_def]
      dsimp only
      simp only [Option.getD_some]
      rw [if_neg (by decide), if_neg (by decide), if_pos trivial]
      cases ho : d.ownedAttribute? with
      | none => rfl
      | some w =>
        cases hc : convert_class_to_schema d with
        | error e => rfl
        | ok s =>
          dsimp only
          rw [hname d hn, if_neg (by simp)]
  · intro d pk m ho
    rw [processOne.eq_def]
    dsimp only
    simp only [Option.getD_some]
    rw [if_neg (by decide), if_neg (by decide), if_pos trivial, ho]
  · intro d pk m n hn hnu ho
    have hc : convert_class_to_schema d =
        .ok { schemaDialect := "http://json-schema.org/draft-07/schema#"
              objectType := "object"
              title := d.name?.getD ""
              description := get_class_description_dict d
              properties := []
              required := []
              taggedValues := get_tagged_values_dict d.taggedValue? } := by
      unfold convert_class_to_schema attrsOf
      rw [ho]
      rfl
    refine ⟨_, hc, ?_⟩
    rw [processOne.eq_def]
    dsimp only
    simp only [Option.getD_some]
    rw [if_neg (by decide), if_pos trivial, hc]
    rw [hn]
    simp only [Option.getD_some]
    rw [if_pos hnu]
  · intro d pk m n s hn hnu ho hc
    obtain ⟨w, hw⟩ := Option.isSome_iff_exists.mp ho
    rw [processOne.eq_def]
    dsimp only
    simp only [Option.getD_some]
    rw [if_neg (by decide), if_neg (by decide), if_pos trivial, hw, hc]
    rw [hn]
    simp only [Option.getD_some]
    rw [if_pos hnu]

/-- Witness for C10 at concrete elements: an unnamed class, an
attribute-free component, a named attribute-free class, and a named
one-attribute component. -/
theorem C10_unknown_names_and_component_attrs_witness :
    ((processOne (.node ({} : ClassDict) (some "uml:Class") none) []).1 = ([] : List (String × Schema)) ∧
      (processOne (.node ({} : ClassDict) (some "uml:Component") none) []).1 = ([] : List (String × Schema))) ∧
    processOne (.node ({} : ClassDict) (some "uml:Component") none) [] = (([] : List (String × Schema)), none) ∧
    (∃ s, convert_class_to_schema { name? := some "Zaak" } = .ok s ∧
      processOne (.node { name? := some "Zaak" } (some "uml:Class") none) [] =
        (pyDictSet [] "Zaak" s, none)) ∧
    processOne
        (.node { name? := some "Dienst"
                 ownedAttribute? := some (.adict { name? := some "a" }, []) }
          (some "uml:Component") none) [] =
      (pyDictSet [] "Dienst"
        { schemaDialect := "http://json-schema.org/draft-07/schema#"
          objectType := "object"
          title := "Dienst"
          description := "Represents a Dienst in the system"
          properties := [("a", PropDef.mk "string" (some "Property a") none none none none [])]
          required := []
          taggedValues := [] }, none) :=
  ⟨C10_unknown_names_and_component_attrs.1 {} none [] (Or.inl rfl),
   C10_unknown_names_and_component_attrs.2.1 {} none [] rfl,
   C10_unknown_names_and_component_attrs.2.2.1 { name? := some "Zaak" } none [] "Zaak" rfl
     (by decide) rfl,
   C10_unknown_names_and_component_attrs.2.2.2
     { name? := some "Dienst", ownedAttribute? := some (.adict { name? := some "a" }, []) }
     none [] "Dienst"
     { schemaDialect := "http://json-schema.org/draft-07/schema#"
       objectType := "object"
       title := "Dienst"
       description := "Represents a Dienst in the system"
       properties := [("a", PropDef.mk "string" (some "Property a") none none none none [])]
       required := []
       taggedValues := [] }
     rfl (by decide) rfl rfl⟩

/-- The character class of the sanitizer regex `[^a-zA-Z0-9]`
(line 99): ASCII letters and digits survive, everything else becomes an
underscore. -/
def pyIsAlnumAZ (c : Char) : Bool :=
  ('a' ≤ c && c ≤ 'z') || ('A' ≤ c && c ≤ 'Z') || ('0' ≤ c && c ≤ '9')

/-- Step 1 (line 93): newline and carriage return become spaces. -/
def sanStep1 (l : List Char) : List Char :=
  l.map fun c => if c = '\n' || c = '\r' then ' ' else c

/-- Step 2 (line 96): backslash and slash become underscores. -/
def sanStep2 (l : List Char) : List Char :=
  l.map fun c => if c = '\\' || c = '/' then '_' else c

/-- Step 3 (line 99): `re.sub(r'[^a-zA-Z0-9]', '_', ...)`. -/
def sanStep3 (l : List Char) : List Char :=
  l.map fun c => if pyIsAlnumAZ c then c else '_'

/-- Step 4 (line 102): `re.sub(r'_+', '_', ...)` — every maximal run of
underscores collapses to a single one. -/
def collapseUS : List Char → List Char
  | [] => []
  | [c] => [c]
  | a :: b :: t => if a = '_' && b = '_' then collapseUS (b :: t) else a :: collapseUS (b :: t)

/-- The strip set of line 105: `strip('_ ')`. -/
def stripSet (c : Char) : Bool := c = '_' || c = ' '

/-- Step 5 (line 105): drop leading and trailing underscores/spaces. -/
def stripBoth (l : List Char) : List Char :=
  ((l.dropWhile stripSet).reverse.dropWhile stripSet).reverse

/-- `_sanitize_filename` (lines 82-118) on character lists: normalize
line breaks, replace path separators, replace the regex class, collapse
underscore runs, strip, lower-case, truncate to 100, and fall back to
"unnamed" when empty. -/
def sanitize_filename (l : List Char) : List Char :=
  let r := ((stripBoth (collapseUS (sanStep3 (sanStep2 (sanStep1 l))))).map lowerAscii).take 100
  if r.isEmpty then "unnamed".toList else r

/-- Characters occurring after step 3: ASCII alphanumerics and the
underscore. -/
def alnumUS (c : Char) : Bool := pyIsAlnumAZ c || c = '_'

/-- Characters of sanitizer outputs: lower-case letters, digits,
underscore (a subset of the `[a-z0-9_-]` class the specification names). -/
def lowerAlnumUS (c : Char) : Bool :=
  ('a' ≤ c && c ≤ 'z') || ('0' ≤ c && c ≤ '9') || c = '_'

/-- No two adjacent underscores. -/
def noDD (l : List Char) : Prop :=
  List.Chain' (fun a b => ¬(a = '_' ∧ b = '_')) l

theorem charLe_iff {a b : Char} : (a ≤ b) ↔ a.toNat ≤ b.toNat := Iff.rfl

theorem charEq_iff {a b : Char} : (a = b) ↔ a.toNat = b.toNat :=
  ⟨fun h => by rw [h], fun h => Char.ext (UInt32.ext h)⟩

theorem toNat_ofNat_valid {n : Nat} (h : n.isValidChar) : (Char.ofNat n).toNat = n := by
  unfold Char.ofNat
  rw [dif_pos h]
  rfl

theorem lowerAscii_toNat_upper {c : Char} (h : ('A' ≤ c && c ≤ 'Z') = true) :
    (lowerAscii c).toNat = c.toNat + 32 := by
  unfold lowerAscii
  rw [if_pos h]
  simp only [Bool.and_eq_true, decide_eq_true_eq, charLe_iff] at h
  have hZ : ('Z').toNat = 90 := rfl
  apply toNat_ofNat_valid
  left
  omega

theorem lowerAscii_eq_self_of_not_upper {c : Char} (h : ¬('A' ≤ c && c ≤ 'Z') = true) :
    lowerAscii c = c := by
  unfold lowerAscii
  rw [if_neg h]

/-- Lower-casing sends the post-step-3 alphabet into the output
alphabet. -/
theorem lowerAlnumUS_lowerAscii {c : Char} (h : alnumUS c = true) :
    lowerAlnumUS (lowerAscii c) = true := by
  by_cases hu : ('A' ≤ c && c ≤ 'Z') = true
  · have ht := lowerAscii_toNat_upper hu
    simp only [Bool.and_eq_true, decide_eq_true_eq, charLe_iff] at hu
    have hA : ('A').toNat = 65 := rfl
    have hZ : ('Z').toNat = 90 := rfl
    simp only [lowerAlnumUS, Bool.or_eq_true, Bool.and_eq_true, decide_eq_true_eq, charLe_iff, charEq_iff]
    have ha : ('a').toNat = 97 := rfl
    have hz : ('z').toNat = 122 := rfl
    left
    omega
  · rw [lowerAscii_eq_self_of_not_upper hu]
    simp only [alnumUS, pyIsAlnumAZ, Bool.or_eq_true, Bool.and_eq_true,
      decide_eq_true_eq, charLe_iff, charEq_iff] at h
    simp only [Bool.and_eq_true, decide_eq_true_eq, charLe_iff] at hu
    simp only [lowerAlnumUS, Bool.or_eq_true, Bool.and_eq_true, decide_eq_true_eq, charLe_iff, charEq_iff]
    have ha : ('a').toNat = 97 := rfl
    have hz : ('z').toNat = 122 := rfl
    have hA : ('A').toNat = 65 := rfl
    have hZ : ('Z').toNat = 90 := rfl
    have h0 : ('0').toNat = 48 := rfl
    have h9 : ('9').toNat = 57 := rfl
    have hU : ('_').toNat = 95 := rfl
    omega

/-- Lower-casing yields an underscore only from an underscore. -/
theorem lowerAscii_eq_underscore {c : Char} (h : lowerAscii c = '_') : c = '_' := by
  by_cases hu : ('A' ≤ c && c ≤ 'Z') = true
  · exfalso
    have ht := lowerAscii_toNat_upper hu
    rw [charEq_iff] at h
    simp only [Bool.and_eq_true, decide_eq_true_eq, charLe_iff] at hu
    have hA : ('A').toNat = 65 := rfl
    have hZ : ('Z').toNat = 90 := rfl
    have hU : ('_').toNat = 95 := rfl
    omega
  · rwa [lowerAscii_eq_self_of_not_upper hu] at h

/-- The output alphabet is fixed by lower-casing. -/
theorem lowerAscii_eq_self_of_lower {c : Char} (h : lowerAlnumUS c = true) :
    lowerAscii c = c := by
  apply lowerAscii_eq_self_of_not_upper
  simp only [lowerAlnumUS, Bool.or_eq_true, Bool.and_eq_true, decide_eq_true_eq, charLe_iff, charEq_iff] at h
  simp only [Bool.and_eq_true, decide_eq_true_eq, charLe_iff, not_and, not_le]
  have ha : ('a').toNat = 97 := rfl
  have hz : ('z').toNat = 122 := rfl
  have hA : ('A').toNat = 65 := rfl
  have hZ : ('Z').toNat = 90 := rfl
  have h0 : ('0').toNat = 48 := rfl
  have h9 : ('9').toNat = 57 := rfl
  have hU : ('_').toNat = 95 := rfl
  intro h1
  omega

theorem map_id_of_mem {f : Char → Char} {l : List Char} (h : ∀ c ∈ l, f c = c) :
    l.map f = l := by
  induction l with
  | nil => rfl
  | cons c t ih =>
    rw [List.map_cons, h c (List.mem_cons_self c t),
      ih (fun d hd => h d (List.mem_cons_of_mem c hd))]

theorem mem_collapseUS {c : Char} : ∀ {l : List Char}, c ∈ collapseUS l → c ∈ l
  | [], h => h
  | [_], h => h
  | a :: b :: t, h => by
    rw [collapseUS] at h
    split at h
    · exact List.mem_cons_of_mem a (mem_collapseUS h)
    · rcases List.mem_cons.mp h with h1 | h1
      · exact h1 ▸ List.mem_cons_self a (b :: t)
      · exact List.mem_cons_of_mem a (mem_collapseUS h1)

theorem head?_collapseUS : ∀ (l : List Char), (collapseUS l).head? = l.head?
  | [] => rfl
  | [_] => rfl
  | a :: b :: t => by
    rw [collapseUS]
    split
    · rename_i hab
      rw [head?_collapseUS (b :: t)]
      simp only [Bool.and_eq_true, decide_eq_true_eq] at hab
      simp only [List.head?_cons, hab.1, hab.2]
    · rfl

theorem noDD_collapseUS : ∀ (l : List Char), noDD (collapseUS l)
  | [] => List.chain'_nil
  | [c] => List.chain'_singleton c
  | a :: b :: t => by
    rw [collapseUS]
    split
    · exact noDD_collapseUS (b :: t)
    · rename_i hab
      rw [noDD, List.chain'_cons']
      refine ⟨?_, noDD_collapseUS (b :: t)⟩
      intro y hy
      rw [head?_collapseUS (b :: t)] at hy
      simp only [List.head?_cons, Option.mem_def, Option.some.injEq] at hy
      subst hy
      intro hcon
      exact hab (by simp [hcon.1, hcon.2])

theorem collapseUS_eq_self : ∀ {l : List Char}, noDD l → collapseUS l = l
  | [], _ => rfl
  | [_], _ => rfl
  | a :: b :: t, h => by
    rw [collapseUS]
    have hR := (List.chain'_cons.mp h).1
    have hab : ¬((a = '_' && b = '_') = true) := by
      simp only [Bool.and_eq_true, decide_eq_true_eq]
      intro hc
      exact hR hc
    rw [if_neg hab, collapseUS_eq_self (List.chain'_cons.mp h).2]

theorem head?_dropWhile_not (p : Char → Bool) (l : List Char) :
    ∀ {c : Char}, (l.dropWhile p).head? = some c → p c = false := by
  induction l with
  | nil => intro c h; simp at h
  | cons d t ih =>
    intro c h
    rw [List.dropWhile_cons] at h
    split at h
    · exact ih h
    · rename_i hd
      simp only [List.head?_cons, Option.some.injEq] at h
      subst h
      exact Bool.eq_false_iff.mpr hd

theorem dropWhile_eq_self_of_head (p : Char → Bool) (l : List Char)
    (h : ∀ c, l.head? = some c → p c = false) : l.dropWhile p = l := by
  cases l with
  | nil => rfl
  | cons d t =>
    rw [List.dropWhile_cons, if_neg (by simp [h d rfl])]

theorem dropTrailing_isPrefix (p : Char → Bool) (m : List Char) :
    ∃ t, (m.reverse.dropWhile p).reverse ++ t = m := by
  obtain ⟨t, ht⟩ := List.dropWhile_suffix (l := m.reverse) p
  exact ⟨t.reverse, by rw [← List.reverse_append, ht, List.reverse_reverse]⟩

theorem head?_append_of_some {l t : List Char} {c : Char} (h : l.head? = some c) :
    (l ++ t).head? = some c := by
  cases l with
  | nil => cases h
  | cons a b => simpa using h

theorem stripBoth_head_not (l : List Char) {c : Char}
    (h : (stripBoth l).head? = some c) : stripSet c = false := by
  obtain ⟨t, ht⟩ := dropTrailing_isPrefix stripSet (l.dropWhile stripSet)
  have hm : (l.dropWhile stripSet).head? = some c := by
    rw [← ht]
    exact head?_append_of_some h
  exact head?_dropWhile_not stripSet l hm

theorem stripBoth_getLast_not (l : List Char) {c : Char}
    (h : (stripBoth l).getLast? = some c) : stripSet c = false := by
  rw [stripBoth, ← List.head?_reverse, List.reverse_reverse] at h
  exact head?_dropWhile_not stripSet _ h

theorem mem_stripBoth {c : Char} {l : List Char} (h : c ∈ stripBoth l) : c ∈ l := by
  rw [stripBoth, List.mem_reverse] at h
  obtain ⟨t1, ht1⟩ := List.dropWhile_suffix (l := (l.dropWhile stripSet).reverse) stripSet
  have h2 : c ∈ (l.dropWhile stripSet).reverse := ht1 ▸ List.mem_append_right t1 h
  rw [List.mem_reverse] at h2
  obtain ⟨t2, ht2⟩ := List.dropWhile_suffix (l := l) stripSet
  exact ht2 ▸ List.mem_append_right t2 h2

theorem noDD_reverse {l : List Char} (h : noDD l) : noDD l.reverse := by
  rw [noDD, List.chain'_reverse]
  exact h.imp (fun a b hab hc => hab ⟨hc.2, hc.1⟩)

theorem noDD_dropWhile (p : Char → Bool) {l : List Char} (h : noDD l) :
    noDD (l.dropWhile p) :=
  h.suffix (List.dropWhile_suffix p)

theorem noDD_stripBoth {l : List Char} (h : noDD l) : noDD (stripBoth l) :=
  noDD_reverse (noDD_dropWhile _ (noDD_reverse (noDD_dropWhile _ h)))

theorem noDD_map_lowerAscii {l : List Char} (h : noDD l) : noDD (l.map lowerAscii) := by
  rw [noDD, List.chain'_map]
  exact h.imp (fun a b hab hc =>
    hab ⟨lowerAscii_eq_underscore hc.1, lowerAscii_eq_underscore hc.2⟩)

theorem noDD_take (n : Nat) {l : List Char} (h : noDD l) : noDD (l.take n) :=
  h.take n

theorem head?_take_pos {l : List Char} {n : Nat} (hn : 0 < n) :
    (l.take n).head? = l.head? := by
  cases l with
  | nil => simp
  | cons a t =>
    cases n with
    | zero => omega
    | succ k => simp [List.take_succ_cons]

theorem mem_sanStep3 {c : Char} {l : List Char} (h : c ∈ sanStep3 l) : alnumUS c = true := by
  rw [sanStep3] at h
  obtain ⟨d, _, hdc⟩ := List.mem_map.mp h
  by_cases hal : pyIsAlnumAZ d = true
  · rw [if_pos hal] at hdc
    subst hdc
    simp [alnumUS, hal]
  · rw [if_neg hal] at hdc
    subst hdc
    decide

theorem lowerAlnumUS_toNat {c : Char} (h : lowerAlnumUS c = true) :
    (97 ≤ c.toNat ∧ c.toNat ≤ 122) ∨ (48 ≤ c.toNat ∧ c.toNat ≤ 57) ∨ c.toNat = 95 := by
  simp only [lowerAlnumUS, Bool.or_eq_true, Bool.and_eq_true, decide_eq_true_eq,
    charLe_iff, charEq_iff] at h
  have ha : ('a').toNat = 97 := rfl
  have hz : ('z').toNat = 122 := rfl
  have h0 : ('0').toNat = 48 := rfl
  have h9 : ('9').toNat = 57 := rfl
  have hU : ('_').toNat = 95 := rfl
  omega

theorem sanStep1_id {l : List Char} (h : ∀ c ∈ l, lowerAlnumUS c = true) :
    sanStep1 l = l := by
  unfold sanStep1
  apply map_id_of_mem
  intro c hc
  have ht := lowerAlnumUS_toNat (h c hc)
  have hn : ¬((c = '\n' || c = '\r') = true) := by
    simp only [Bool.or_eq_true, decide_eq_true_eq, charEq_iff]
    have h1 : ('\n').toNat = 10 := rfl
    have h2 : ('\r').toNat = 13 := rfl
    omega
  rw [if_neg hn]

theorem sanStep2_id {l : List Char} (h : ∀ c ∈ l, lowerAlnumUS c = true) :
    sanStep2 l = l := by
  unfold sanStep2
  apply map_id_of_mem
  intro c hc
  have ht := lowerAlnumUS_toNat (h c hc)
  have hn : ¬((c = '\\' || c = '/') = true) := by
    simp only [Bool.or_eq_true, decide_eq_true_eq, charEq_iff]
    have h1 : ('\\').toNat = 92 := rfl
    have h2 : ('/').toNat = 47 := rfl
    omega
  rw [if_neg hn]

theorem sanStep3_id {l : List Char} (h : ∀ c ∈ l, lowerAlnumUS c = true) :
    sanStep3 l = l := by
  unfold sanStep3
  apply map_id_of_mem
  intro c hc
  by_cases hal : pyIsAlnumAZ c = true
  · rw [if_pos hal]
  · rw [if_neg hal]
    have ht := lowerAlnumUS_toNat (h c hc)
    simp only [pyIsAlnumAZ, Bool.or_eq_true, Bool.and_eq_true, decide_eq_true_eq,
      charLe_iff] at hal
    rw [charEq_iff]
    have ha : ('a').toNat = 97 := rfl
    have hz : ('z').toNat = 122 := rfl
    have hA : ('A').toNat = 65 := rfl
    have hZ : ('Z').toNat = 90 := rfl
    have h0 : ('0').toNat = 48 := rfl
    have h9 : ('9').toNat = 57 := rfl
    have hU : ('_').toNat = 95 := rfl
    omega

theorem map_lowerAscii_id {l : List Char} (h : ∀ c ∈ l, lowerAlnumUS c = true) :
    l.map lowerAscii = l :=
  map_id_of_mem (fun c hc => lowerAscii_eq_self_of_lower (h c hc))

theorem stripBoth_eq_self {l : List Char}
    (hhead : ∀ c, l.head? = some c → stripSet c = false)
    (hlast : ∀ c, l.getLast? = some c → stripSet c = false) : stripBoth l = l := by
  have h2 : l.reverse.dropWhile stripSet = l.reverse := by
    apply dropWhile_eq_self_of_head
    intro c hc
    rw [List.head?_reverse] at hc
    exact hlast c hc
  unfold stripBoth
  rw [dropWhile_eq_self_of_head stripSet l hhead, h2, List.reverse_reverse]

theorem sanitize_filename_fixed {r : List Char}
    (hne : r ≠ [])
    (hchar : ∀ c ∈ r, lowerAlnumUS c = true)
    (hchain : noDD r)
    (hhead : ∀ c, r.head? = some c → c ≠ '_')
    (hlast : r.getLast? ≠ some '_')
    (hlen : r.length ≤ 100) :
    sanitize_filename r = r := by
  have hspace : ∀ c ∈ r, ¬ c = ' ' := by
    intro c hc hsp
    have := lowerAlnumUS_toNat (hchar c hc)
    rw [hsp] at this
    have h32 : (' ').toNat = 32 := rfl
    omega
  have hhead2 : ∀ c, r.head? = some c → stripSet c = false := by
    intro c hc
    have hcm : c ∈ r := by
      cases r with
      | nil => cases hc
      | cons a t =>
        simp only [List.head?_cons, Option.some.injEq] at hc
        rw [← hc]
        exact List.mem_cons_self a t
    apply Bool.eq_false_iff.mpr
    intro hss
    simp only [stripSet, Bool.or_eq_true, decide_eq_true_eq] at hss
    rcases hss with hss | hss
    · exact hhead c hc hss
    · exact hspace c hcm hss
  have hlast2 : ∀ c, r.getLast? = some c → stripSet c = false := by
    intro c hc
    have hcm : c ∈ r := by
      rw [← List.head?_reverse] at hc
      have : c ∈ r.reverse := by
        cases hr : r.reverse with
        | nil => rw [hr] at hc; cases hc
        | cons a t =>
          rw [hr] at hc
          simp only [List.head?_cons, Option.some.injEq] at hc
          rw [← hc]
          exact List.mem_cons_self a t
      rwa [List.mem_reverse] at this
    apply Bool.eq_false_iff.mpr
    intro hss
    simp only [stripSet, Bool.or_eq_true, decide_eq_true_eq] at hss
    rcases hss with hss | hss
    · rw [hss] at hc
      exact hlast hc
    · exact hspace c hcm hss
  unfold sanitize_filename
  rw [sanStep1_id hchar, sanStep2_id hchar, sanStep3_id hchar, collapseUS_eq_self hchain,
    stripBoth_eq_self hhead2 hlast2, map_lowerAscii_id hchar, List.take_of_length_le hlen]
  cases r with
  | nil => exact absurd rfl hne
  | cons a t => rw [if_neg (by simp)]

theorem noDD_of_no_underscore {l : List Char} (h : '_' ∉ l) : noDD l := by
  induction l with
  | nil => exact List.chain'_nil
  | cons a t ih =>
    rw [noDD, List.chain'_cons']
    refine ⟨?_, ih (fun hm => h (List.mem_cons_of_mem a hm))⟩
    intro y _ hc
    exact h (hc.1 ▸ List.mem_cons_self a t)

theorem sanitize_output_props (l : List Char) :
    sanitize_filename l ≠ [] ∧
    (∀ c ∈ sanitize_filename l, lowerAlnumUS c = true) ∧
    noDD (sanitize_filename l) ∧
    (∀ c, (sanitize_filename l).head? = some c → c ≠ '_') ∧
    (sanitize_filename l).length ≤ 100 := by
  unfold sanitize_filename
  by_cases he : (((stripBoth (collapseUS (sanStep3 (sanStep2 (sanStep1 l))))).map
      lowerAscii).take 100).isEmpty = true
  · rw [if_pos he]
    refine ⟨by decide, ?_, noDD_of_no_underscore (by decide), ?_, by decide⟩
    · intro c hc
      have hu : ("unnamed".toList) = ['u', 'n', 'n', 'a', 'm', 'e', 'd'] := rfl
      rw [hu] at hc
      fin_cases hc <;> decide
    · intro c hc
      have hu : ("unnamed".toList) = ['u', 'n', 'n', 'a', 'm', 'e', 'd'] := rfl
      rw [hu] at hc
      simp only [List.head?_cons, Option.some.injEq] at hc
      rw [← hc]
      decide
  · rw [if_neg he]
    refine ⟨fun hh => he (by rw [hh]; rfl), ?_, ?_, ?_, ?_⟩
    · intro c hc
      have hc2 := List.take_subset 100 _ hc
      obtain ⟨c0, hc0, rfl⟩ := List.mem_map.mp hc2
      exact lowerAlnumUS_lowerAscii (mem_sanStep3 (mem_collapseUS (mem_stripBoth hc0)))
    · exact noDD_take 100 (noDD_map_lowerAscii (noDD_stripBoth (noDD_collapseUS _)))
    · intro c hc
      rw [head?_take_pos (by omega), List.head?_map] at hc
      cases hh : (stripBoth (collapseUS (sanStep3 (sanStep2 (sanStep1 l))))).head? with
      | none => rw [hh] at hc; cases hc
      | some c0 =>
        rw [hh] at hc
        simp only [Option.map_some'] at hc
        injection hc with hc
        intro hceq
        rw [hceq] at hc
        have hc0 : c0 = '_' := lowerAscii_eq_underscore hc
        have := stripBoth_head_not _ hh
        rw [hc0] at this
        exact absurd this (by decide)
    · rw [List.length_take]
      exact min_le_left _ _

/-- C5 counterexample: 99 letters, an underscore, one more letter: the
100-character truncation leaves a trailing underscore that a second
application strips, so sanitizing twice differs from sanitizing once. -/
theorem C5_counterexample_idempotence :
    sanitize_filename (sanitize_filename (List.replicate 99 'a' ++ ['_', 'b'])) ≠
      sanitize_filename (List.replicate 99 'a' ++ ['_', 'b']) := by
  decide

/-- C5 (amended): the sanitizer always returns a non-empty result over
lower-case letters, digits and underscore (hence inside the claimed
class [a-z0-9_-]) of length at most 100, and it is idempotent on every
input whose sanitized form does not end in an underscore; a trailing
underscore arises only when the 100-character truncation cuts a longer
name, and exactly there a second application differs. -/
theorem C5_sanitizer_shape_and_idempotence (l : List Char) :
    (sanitize_filename l ≠ [] ∧
     (∀ c ∈ sanitize_filename l, lowerAlnumUS c = true) ∧
     (sanitize_filename l).length ≤ 100) ∧
    ((sanitize_filename l).getLast? ≠ some '_' →
      sanitize_filename (sanitize_filename l) = sanitize_filename l) := by
  obtain ⟨h1, h2, h3, h4, h5⟩ := sanitize_output_props l
  exact ⟨⟨h1, h2, h5⟩, fun hl => sanitize_filename_fixed h1 h2 h3 h4 hl h5⟩

/-- Witness for C5: a short name is sanitized idempotently. -/
theorem C5_sanitizer_shape_and_idempotence_witness :
    sanitize_filename (sanitize_filename ['A', 'b', '!']) = sanitize_filename ['A', 'b', '!'] :=
  (C5_sanitizer_shape_and_idempotence ['A', 'b', '!']).2 (by decide)

/-- The §4.5 character class as the specification words it, with the
hyphen dropped — the amendment the counterexample forces: ASCII letters,
digits and underscore survive. -/
def specKeep (c : Char) : Bool :=
  ('A' ≤ c && c ≤ 'Z') || ('a' ≤ c && c ≤ 'z') || ('0' ≤ c && c ≤ '9') || c = '_'

/-- The §4.5 step sequence, worded from the specification with the
corrected character class: normalize line breaks to spaces, replace path
separators with underscore, replace every character outside the class
with underscore, collapse repeated underscores, trim leading/trailing
underscore and whitespace, lower-case, truncate to 100 characters, and
return "unnamed" when empty. -/
def specSanitizeSteps (l : List Char) : List Char :=
  let s1 := l.map fun c => if c = '\n' || c = '\r' then ' ' else c
  let s2 := s1.map fun c => if c = '\\' || c = '/' then '_' else c
  let s3 := s2.map fun c => if specKeep c then c else '_'
  let s4 := collapseUS s3
  let s5 := stripBoth s4
  let s6 := s5.map lowerAscii
  let s7 := s6.take 100
  if s7.isEmpty then "unnamed".toList else s7

/-- C6 counterexample: the hyphen of "a-b" is replaced by an underscore
— the code replaces everything outside `[a-zA-Z0-9]`, so hyphens are not
preserved as the claim states. -/
theorem C6_counterexample_hyphen_replaced :
    sanitize_filename ['a', '-', 'b'] = ['a', '_', 'b'] ∧
    '-' ∉ sanitize_filename ['a', '-', 'b'] := by
  refine ⟨rfl, ?_⟩
  decide

/-- C6 (amended): the sanitizer performs exactly the specified step
sequence with the character class corrected to `[A-Za-z0-9_]`: hyphens
are replaced by underscores like every other character outside the
class (keeping an underscore and replacing it with an underscore
coincide, so this equals the code class `[^a-zA-Z0-9]`). -/
theorem C6_sanitizer_follows_spec_steps (l : List Char) :
    sanitize_filename l = specSanitizeSteps l := by
  have hstep : (fun c : Char => if pyIsAlnumAZ c then c else '_') =
      (fun c : Char => if specKeep c then c else '_') := by
    funext c
    by_cases h1 : pyIsAlnumAZ c = true
    · rw [if_pos h1, if_pos ?_]
      simp only [specKeep, pyIsAlnumAZ, Bool.or_eq_true, Bool.and_eq_true,
        decide_eq_true_eq] at *
      tauto
    · by_cases h2 : c = '_'
      · subst h2
        rw [if_neg h1, if_pos (by decide)]
      · rw [if_neg h1, if_neg ?_]
        simp only [specKeep, pyIsAlnumAZ, Bool.or_eq_true, Bool.and_eq_true,
          decide_eq_true_eq] at *
        tauto
  unfold sanitize_filename specSanitizeSteps sanStep1 sanStep2 sanStep3
  dsimp only
  rw [hstep]

end GGM
